import Mathlib

/-!
Shallow embedding of the Lance substrait conversion layer
(rust/lance-datafusion/src/substrait.rs) and of the cloneable error wrapper
(rust/lance-core/src/error.rs), together with proofs settling the frozen
claims about them.

Modelling conventions:
* Machine integers are modelled as Nat / Int; the two Rust integer casts that
  occur (i32 as usize, usize as i32) are modelled with explicit modular
  arithmetic.
* Protobuf fields that the Rust code unwraps unconditionally and that no claim
  exercises in the missing state are modelled as required fields.  Where a
  claim is about the panic an unwrap can cause (the base schema of the
  envelope, the struct of a NamedStruct, and the name-vector indexing inside
  remove_extension_types) the partiality is kept explicit and a panic is a
  distinguished outcome (PRes.panic).
* The Rust HashMap is modelled as an association list; the keys inserted by
  remove_extension_types are pairwise distinct, so List.lookup agrees with the
  hash-map semantics.
* Call-site location capture is abstracted into one constant location per
  source file; no claim depends on line numbers.
-/

namespace LanceSubstrait

/-- Source location attached to every error (snafu Location). -/
structure Location where
  file : String
  line : Nat
  col : Nat
deriving DecidableEq, Repr

/-- Rendering of a snafu location, file:line:col. -/
def Location.display (l : Location) : String :=
  l.file ++ ":" ++ toString l.line ++ ":" ++ toString l.col

/-- The Lance error taxonomy, restricted to the variants this conversion layer
and the claims exercise (from rust/lance-core/src/error.rs).  Boxed source
errors are modelled by their rendered message. -/
inductive Error where
  | invalidInput (source : String) (location : Location)
  | notSupported (source : String) (location : Location)
  | internal (message : String) (location : Location)
  | arrow (message : String) (location : Location)
  | schemaLance (message : String) (location : Location)
  | ioErr (source : String) (location : Location)
  | wrapped (message : String) (location : Location)
  | execution (message : String) (location : Location)
  | cloned (message : String) (location : Location)
deriving DecidableEq, Repr

/-- The snafu display strings of the modelled variants. -/
def Error.display : Error → String
  | .invalidInput s l => "Invalid user input: " ++ s ++ ", " ++ l.display
  | .notSupported s l => "Not supported: " ++ s ++ ", " ++ l.display
  | .internal m l =>
      "Encountered internal error. Please file a bug report at https://github.com/lancedb/lance/issues. "
        ++ m ++ ", " ++ l.display
  | .arrow m l => "LanceError(Arrow): " ++ m ++ ", " ++ l.display
  | .schemaLance m l => "LanceError(Schema): " ++ m ++ ", " ++ l.display
  | .ioErr s l => "LanceError(IO): " ++ s ++ ", " ++ l.display
  | .wrapped m l => "Wrapped error: " ++ m ++ ", " ++ l.display
  | .execution m l => "Query Execution error: " ++ m ++ ", " ++ l.display
  | .cloned m l => "Cloned error: " ++ m ++ ", " ++ l.display

/-- The kind (enum discriminant) of an error. -/
inductive ErrorKind where
  | invalidInput | notSupported | internal | arrow | schemaLance
  | ioErr | wrapped | execution | cloned
deriving DecidableEq, Repr

/-- Discriminant of an error value. -/
def Error.kind : Error → ErrorKind
  | .invalidInput .. => .invalidInput
  | .notSupported .. => .notSupported
  | .internal .. => .internal
  | .arrow .. => .arrow
  | .schemaLance .. => .schemaLance
  | .ioErr .. => .ioErr
  | .wrapped .. => .wrapped
  | .execution .. => .execution
  | .cloned .. => .cloned

/-- CloneableError from rust/lance-core/src/error.rs: a newtype holding the
full original error. -/
structure CloneableError where
  err : Error

/-- The Clone implementation of CloneableError: the duplicate holds only the
Cloned variant carrying the rendered message of the wrapped error, with the
location of the call to clone (track_caller). -/
def CloneableError.clone (ce : CloneableError) (callerLoc : Location) : CloneableError :=
  ⟨.cloned ce.err.display callerLoc⟩

/-- The one abstracted call-site location used by the substrait module. -/
def srcLoc : Location := ⟨"rust/lance-datafusion/src/substrait.rs", 0, 0⟩

/-- The reserved placeholder name marker tested by remove_extension_types. -/
def placeholderName : String := "__unlikely_name_placeholder"

/-- Rust str starts_with, modelled over character lists. -/
def strStartsWith (s p : String) : Bool :=
  p.toList.isPrefixOf s.toList

mutual
/-- substrait Type.  The kind oneof is unwrapped unconditionally by the code,
so it is modelled as required. -/
inductive SType where
  | mk (kind : Kind)

/-- The type kinds the conversion layer distinguishes: nested records,
user-defined types and references to them, and every other (leaf) kind,
represented by a tag. -/
inductive Kind where
  | structKind (s : Struct)
  | userDefined (anchor : Nat)
  | userDefinedTypeReference (anchor : Nat)
  | leaf (tag : String)

/-- substrait Struct payload: nullability and type-variation data are carried
through verbatim by the code. -/
inductive Struct where
  | mk (nullability : Nat) (typeVariationReference : Nat) (types : List SType)
end

/-- The kind of a type node. -/
def SType.kind : SType → Kind
  | .mk k => k

/-- Nullability of a struct payload. -/
def Struct.nullability : Struct → Nat
  | .mk n _ _ => n

/-- Type-variation reference of a struct payload. -/
def Struct.typeVariationReference : Struct → Nat
  | .mk _ t _ => t

/-- Child type nodes of a struct payload. -/
def Struct.types : Struct → List SType
  | .mk _ _ ts => ts

mutual
/-- Flattened span of a type node (rust count_fields): 1 for a leaf, 1 plus
the sum over the children for a record node. -/
def count_fields : SType → Nat
  | .mk (.structKind (.mk _ _ ts)) => count_fields_list ts + 1
  | .mk (.userDefined _) => 1
  | .mk (.userDefinedTypeReference _) => 1
  | .mk (.leaf _) => 1

/-- Sum of flattened spans over a list of type nodes. -/
def count_fields_list : List SType → Nat
  | [] => 0
  | t :: ts => count_fields t + count_fields_list ts
end

/-- A named wire schema: a flattened name vector plus an optional struct of
top-level type nodes. -/
structure NamedStruct where
  names : List String
  struct : Option Struct

/-- A native (arrow) field.  The conversion layer never inspects the data
type, so it is represented by a tag. -/
structure ArrowField where
  name : String
  dataTypeTag : String
  nullable : Bool
deriving DecidableEq, Repr

/-- A native (arrow) schema. -/
structure ArrowSchema where
  fields : List ArrowField
deriving DecidableEq, Repr

/-- Outcome of a fallible Rust computation, with a panic as a distinguished
third outcome. -/
inductive PRes (α : Type) where
  | ok (value : α)
  | err (error : Error)
  | panic

/-- Is a Kind a user-defined type or a user-defined type reference. -/
def isUserDefinedKind : Kind → Bool
  | .userDefined _ => true
  | .userDefinedTypeReference _ => true
  | .structKind _ => false
  | .leaf _ => false

/-- The index-map entries old + i to new + i for i below n, in insertion
order. -/
def rangeEntries : Nat → Nat → Nat → List (Nat × Nat)
  | _, _, 0 => []
  | old, new, n + 1 => (old, new) :: rangeEntries (old + 1) (new + 1) n

/-- The per-field loop of remove_extension_types.  Iterates the zipped
top-level wire types and native fields with the running new-index counter and
the running old flattened cursor; indexing the name vector out of range is the
panic the Rust indexing would raise. -/
def reconcile_fields (names : List String) :
    List SType → List ArrowField → Nat → Nat →
    PRes (List SType × List ArrowField × List (Nat × Nat))
  | [], _, _, _ => .ok ([], [], [])
  | _ :: _, [], _, _ => .ok ([], [], [])
  | t :: ts, a :: arest, fieldCounter, fieldIndex =>
    match names[fieldIndex]? with
    | none => .panic
    | some nm =>
      if !(strStartsWith nm placeholderName) && !(isUserDefinedKind (SType.kind t)) then
        match reconcile_fields names ts arest
            (fieldCounter + count_fields t) (fieldIndex + count_fields t) with
        | .ok (ks, ka, mp) =>
            .ok (t :: ks, a :: ka, rangeEntries fieldIndex fieldCounter (count_fields t) ++ mp)
        | .err e => .err e
        | .panic => .panic
      else
        reconcile_fields names ts arest fieldCounter (fieldIndex + count_fields t)

/-- Reconstruction of the reduced name vector: place every retained old name
at its mapped new index inside a fresh vector of empty strings. -/
def rebuild_names (oldNames : List String) (mapping : List (Nat × Nat)) : List String :=
  oldNames.enum.foldl
    (fun acc p =>
      match List.lookup p.1 mapping with
      | some newIdx => acc.set newIdx p.2
      | none => acc)
    (List.replicate mapping.length "")

/-- rust remove_extension_types: drop top-level wire fields whose name starts
with the placeholder marker or whose kind is user-defined, produce the reduced
wire schema, the reduced native schema and the old-to-new flattened index
map. -/
def remove_extension_types (substrait_schema : NamedStruct) (arrow_schema : ArrowSchema) :
    PRes (NamedStruct × ArrowSchema × List (Nat × Nat)) :=
  match substrait_schema.struct with
  | none => .panic
  | some fields =>
    if fields.types.length ≠ arrow_schema.fields.length then
      .err (.invalidInput
        "the number of fields in the provided substrait schema did not match the number of fields in the input schema."
        srcLoc)
    else
      match reconcile_fields substrait_schema.names fields.types arrow_schema.fields 0 0 with
      | .ok (keptS, keptA, mapping) =>
        .ok
          ( { names := rebuild_names substrait_schema.names mapping
            , struct := some (.mk fields.nullability fields.typeVariationReference keptS) }
          , { fields := keptA }
          , mapping )
      | .err e => .err e
      | .panic => .panic

/-- A reference segment of a direct field reference: a list element, a map
key, or a struct field index with an optional nested child segment.  Unused
payloads (element offsets, map-key literals) are elided. -/
inductive RefSegment where
  | listElement (offset : Int) (child : Option RefSegment)
  | mapKey (child : Option RefSegment)
  | structField (field : Int) (child : Option RefSegment)

/-- The reference-type oneof of a field reference: a direct reference with a
segment (unwrapped unconditionally by the code, hence required), or a masked
reference (payload never inspected). -/
inductive ReferenceType where
  | directReference (seg : RefSegment)
  | maskedReference

mutual
/-- A substrait wire expression.  One constructor per rex-type sub-kind
handled by remap_expr_references.  Payloads the code never visits (literal
values, function anchors, window frames, subquery bodies, switch keys, cast
targets) are elided; every expression-valued position the proto carries is
kept, including the children of a nested literal and the sub-expression root
of a field reference, which the remapper does not visit. -/
inductive Expression where
  | literal
  | nested (children : List Expression)
  | enum
  | dynamicParameter
  | scalarFunction (args : List Expression) (arguments : List ArgType)
  | windowFunction
  | subquery
  | ifThen (ifs : List (Expression × Expression)) (elseExpr : Expression)
  | switchExpr (thens : List Expression) (elseExpr : Expression)
  | singularOrList (value : Expression) (options : List Expression)
  | multiOrList (value : List Expression) (options : List (List Expression))
  | cast (input : Expression)
  | selection (refType : ReferenceType) (rootType : RootType)

/-- A function argument: a value sub-expression, an enum option, or a type
argument. -/
inductive ArgType where
  | value (e : Expression)
  | enumArg (option : String)
  | typeArg

/-- The root-type oneof of a field reference: a sub-expression root, the
direct input, or an outer-scope reference. -/
inductive RootType where
  | expressionRoot (e : Expression)
  | rootReference
  | outerReference (stepsOut : Nat)
end

/-- Rust cast i32 as usize: sign-extend to 64 bits and reinterpret. -/
def usize_of_i32 (i : Int) : Nat :=
  (i % (2 : Int) ^ 64).toNat

/-- Rust cast usize as i32: truncate to 32 bits and reinterpret as signed. -/
def i32_of_usize (n : Nat) : Int :=
  let r : Nat := n % 2 ^ 32
  if r < 2 ^ 31 then (r : Int) else (r : Int) - 2 ^ 32

mutual
/-- rust remap_expr_references: rewrite every direct-input struct-field
reference through the index map, reject every construct that cannot be
handled.  In-place mutation is modelled by returning the rewritten tree. -/
def remap_expr_references (mapping : List (Nat × Nat)) :
    Expression → Except Error Expression
  | .literal => .ok .literal
  | .nested children => .ok (.nested children)
  | .enum => .ok .enum
  | .dynamicParameter => .ok .dynamicParameter
  | .windowFunction =>
      .error (.invalidInput
        "Window functions or subqueries not allowed in filter expression" srcLoc)
  | .subquery =>
      .error (.invalidInput
        "Window functions or subqueries not allowed in filter expression" srcLoc)
  | .scalarFunction args arguments =>
      match remap_list mapping args with
      | .error e => .error e
      | .ok args2 =>
        match remap_args mapping arguments with
        | .error e => .error e
        | .ok arguments2 => .ok (.scalarFunction args2 arguments2)
  | .ifThen ifs elseExpr =>
      match remap_ifs mapping ifs with
      | .error e => .error e
      | .ok ifs2 =>
        match remap_expr_references mapping elseExpr with
        | .error e => .error e
        | .ok else2 => .ok (.ifThen ifs2 else2)
  | .switchExpr thens elseExpr =>
      match remap_list mapping thens with
      | .error e => .error e
      | .ok thens2 =>
        match remap_expr_references mapping elseExpr with
        | .error e => .error e
        | .ok else2 => .ok (.switchExpr thens2 else2)
  | .singularOrList value options =>
      match remap_list mapping options with
      | .error e => .error e
      | .ok options2 =>
        match remap_expr_references mapping value with
        | .error e => .error e
        | .ok value2 => .ok (.singularOrList value2 options2)
  | .multiOrList value options =>
      match remap_records mapping options with
      | .error e => .error e
      | .ok options2 =>
        match remap_list mapping value with
        | .error e => .error e
        | .ok value2 => .ok (.multiOrList value2 options2)
  | .cast input =>
      match remap_expr_references mapping input with
      | .error e => .error e
      | .ok input2 => .ok (.cast input2)
  | .selection refType rootType =>
      match rootType with
      | .expressionRoot e => .ok (.selection refType (.expressionRoot e))
      | .outerReference n => .ok (.selection refType (.outerReference n))
      | .rootReference =>
        match refType with
        | .directReference seg =>
          match seg with
          | .listElement _ _ =>
              .error (.invalidInput
                "map/list nested references not supported in pushdown filters" srcLoc)
          | .mapKey _ =>
              .error (.invalidInput
                "map/list nested references not supported in pushdown filters" srcLoc)
          | .structField f child =>
            if child.isSome then
              .error (.invalidInput
                "nested references in pushdown filters not yet supported" srcLoc)
            else
              match List.lookup (usize_of_i32 f) mapping with
              | some newIndex =>
                  .ok (.selection
                    (.directReference (.structField (i32_of_usize newIndex) child))
                    .rootReference)
              | none =>
                  .error (.invalidInput
                    "pushdown filter referenced a field that is not yet supported by Substrait conversion"
                    srcLoc)
        | .maskedReference =>
            .error (.invalidInput
              "masked references not yet supported in filter expressions" srcLoc)

/-- Remap over a list of expressions, first failure aborting. -/
def remap_list (mapping : List (Nat × Nat)) :
    List Expression → Except Error (List Expression)
  | [] => .ok []
  | e :: es =>
      match remap_expr_references mapping e with
      | .error er => .error er
      | .ok e2 =>
        match remap_list mapping es with
        | .error er => .error er
        | .ok es2 => .ok (e2 :: es2)

/-- Remap over function arguments: only value arguments are visited. -/
def remap_args (mapping : List (Nat × Nat)) :
    List ArgType → Except Error (List ArgType)
  | [] => .ok []
  | .value e :: rest =>
      match remap_expr_references mapping e with
      | .error er => .error er
      | .ok e2 =>
        match remap_args mapping rest with
        | .error er => .error er
        | .ok rest2 => .ok (.value e2 :: rest2)
  | .enumArg s :: rest =>
      match remap_args mapping rest with
      | .error er => .error er
      | .ok rest2 => .ok (.enumArg s :: rest2)
  | .typeArg :: rest =>
      match remap_args mapping rest with
      | .error er => .error er
      | .ok rest2 => .ok (.typeArg :: rest2)

/-- Remap over if/then clauses: both the condition and the branch are
visited. -/
def remap_ifs (mapping : List (Nat × Nat)) :
    List (Expression × Expression) → Except Error (List (Expression × Expression))
  | [] => .ok []
  | (c, t) :: rest =>
      match remap_expr_references mapping c with
      | .error er => .error er
      | .ok c2 =>
        match remap_expr_references mapping t with
        | .error er => .error er
        | .ok t2 =>
          match remap_ifs mapping rest with
          | .error er => .error er
          | .ok rest2 => .ok ((c2, t2) :: rest2)

/-- Remap over the option records of a multi-value membership test. -/
def remap_records (mapping : List (Nat × Nat)) :
    List (List Expression) → Except Error (List (List Expression))
  | [] => .ok []
  | r :: rest =>
      match remap_list mapping r with
      | .error er => .error er
      | .ok r2 =>
        match remap_records mapping rest with
        | .error er => .error er
        | .ok rest2 => .ok (r2 :: rest2)
end

/-- The mapping-type oneof of an extension declaration. -/
inductive MappingType where
  | extensionFunction (anchor : Nat)
  | extensionType (anchor : Nat)
  | extensionTypeVariation (anchor : Nat)

/-- A simple extension declaration of the envelope. -/
structure SimpleExtensionDeclaration where
  mappingType : Option MappingType

/-- rust remove_type_extensions: keep only function-extension
declarations. -/
def remove_type_extensions (declarations : List SimpleExtensionDeclaration) :
    List SimpleExtensionDeclaration :=
  declarations.filter fun d =>
    match d.mappingType with
    | some (.extensionFunction _) => true
    | _ => false

/-- The expression sub-type of a referenced expression: a plain scalar
expression or an aggregate measure (payload never inspected). -/
inductive ExprType where
  | expressionET (e : Expression)
  | measure

/-- One referenced expression of the envelope; the sub-type oneof may be
absent. -/
structure ExpressionReference where
  exprType : Option ExprType

/-- The decoded top-level wire message (prost decoding of the byte input is
the external codec and is not re-modelled; parsing starts from the decoded
envelope). -/
structure ExtendedExpression where
  referredExpr : List ExpressionReference
  baseSchema : Option NamedStruct
  extensions : List SimpleExtensionDeclaration

/-- Length of the top-level type list behind the struct of a named schema;
the code reads it through an unwrap that is only reached where the struct is
known to be present. -/
def NamedStruct.typesLen (ns : NamedStruct) : Nat :=
  match ns.struct with
  | some s => s.types.length
  | none => 0

/-- rust parse_substrait up to the construction of the synthetic single-table
plan: envelope-shape validation, schema reconciliation, and conditional
reference remapping.  The output triple (reduced wire schema, reduced native
schema, expression) is exactly the data the code embeds into the dummy plan
handed to the external planner; plan construction, the external
wire-to-native conversion and the final qualifier-stripping pass over its
result (strip_dummy_qualifiers below) consume it unchanged. -/
def parse_substrait (envelope : ExtendedExpression) (input_schema : ArrowSchema) :
    PRes (NamedStruct × ArrowSchema × Expression) :=
  if envelope.referredExpr.isEmpty then
    .err (.invalidInput
      "the provided substrait expression is empty (contains no expressions)" srcLoc)
  else if envelope.referredExpr.length > 1 then
    .err (.invalidInput
      ("the provided substrait expression had " ++ toString envelope.referredExpr.length
        ++ " expressions when only 1 was expected") srcLoc)
  else
    match envelope.referredExpr.head?.bind ExpressionReference.exprType with
    | none =>
        .err (.invalidInput
          "the provided substrait had an expression but was missing an expr_type" srcLoc)
    | some .measure =>
        .err (.invalidInput "the provided substrait was not a scalar expression" srcLoc)
    | some (.expressionET e) =>
      match envelope.baseSchema with
      | none => .panic
      | some base =>
        match base.struct with
        | some _ =>
          match remove_extension_types base input_schema with
          | .ok (substrait_schema, reduced_schema, index_mapping) =>
            if substrait_schema.typesLen ≠ base.typesLen then
              match remap_expr_references index_mapping e with
              | .ok e2 => .ok (substrait_schema, reduced_schema, e2)
              | .error er => .err er
            else
              .ok (substrait_schema, reduced_schema, e)
          | .err er => .err er
          | .panic => .panic
        | none => .ok (base, input_schema, e)

/-- A table reference of the native planner: bare, partially qualified, or
fully qualified. -/
inductive TableRef where
  | bare (table : String)
  | partialRef (schemaName : String) (table : String)
  | full (catalog : String) (schemaName : String) (table : String)
deriving DecidableEq, Repr

/-- A native column reference: an optional table qualifier, a name, and the
span metadata the code carries through unchanged. -/
structure DFColumn where
  relation : Option TableRef
  name : String
  spans : List String
deriving DecidableEq, Repr

/-- The fragment of the native expression type the final pass of
parse_substrait distinguishes: column references are rewritten, every other
node only hosts the recursion; a binary comparison and a literal suffice to
express the decode scenarios. -/
inductive DFExpr where
  | column (c : DFColumn)
  | literalInt (v : Int)
  | binaryExpr (left : DFExpr) (op : String) (right : DFExpr)
deriving DecidableEq, Repr

/-- The final tree transform of parse_substrait: rewrite every column
qualified with the synthetic dummy table into an unqualified column, fail on
any other qualifier.  Errors are the message strings of the raised
DataFusionError. -/
def strip_dummy_qualifiers : DFExpr → Except String DFExpr
  | .column c =>
    match c.relation with
    | some (.bare table) =>
      if table = "dummy" then
        .ok (.column { relation := none, name := c.name, spans := c.spans })
      else
        .error ("Unexpected reference to table " ++ table ++ " found when parsing filter")
    | some (.partialRef _ _) =>
        .error "Unexpected partially or fully qualified table reference encountered when parsing filter"
    | some (.full _ _ _) =>
        .error "Unexpected partially or fully qualified table reference encountered when parsing filter"
    | none => .ok (.column c)
  | .literalInt v => .ok (.literalInt v)
  | .binaryExpr l op r =>
      match strip_dummy_qualifiers l with
      | .error msg => .error msg
      | .ok l2 =>
        match strip_dummy_qualifiers r with
        | .error msg => .error msg
        | .ok r2 => .ok (.binaryExpr l2 op r2)

/-!
Spec-side definitions: the quantities the claims talk about (drop rule,
flattened spans of kept fields, containment of rejected constructs), stated
independently of the loop that computes them.
-/

/-- The drop rule of the spec: the top-level field whose flattened start
index is idx is dropped iff the wire name at that index carries the reserved
placeholder marker or the kind is user-defined. -/
def isDroppedAt (names : List String) (idx : Nat) (t : SType) : Bool :=
  strStartsWith ((names[idx]?).getD "") placeholderName || isUserDefinedKind t.kind

/-- Sum over kept top-level fields of their flattened span, walking the
top-level fields from flattened start index idx. -/
def kept_span_sum (names : List String) : List SType → Nat → Nat
  | [], _ => 0
  | t :: ts, idx =>
      (if isDroppedAt names idx t then 0 else count_fields t)
        + kept_span_sum names ts (idx + count_fields t)

/-- Number of kept top-level fields, walking from flattened start index
idx. -/
def kept_field_count (names : List String) : List SType → Nat → Nat
  | [], _ => 0
  | t :: ts, idx =>
      (if isDroppedAt names idx t then 0 else 1)
        + kept_field_count names ts (idx + count_fields t)

/-- The kept top-level wire type nodes, in order. -/
def kept_types (names : List String) : List SType → Nat → List SType
  | [], _ => []
  | t :: ts, idx =>
      (if isDroppedAt names idx t then [] else [t])
        ++ kept_types names ts (idx + count_fields t)

/-- The kept native fields, in order, paired positionally with the top-level
wire nodes. -/
def kept_arrow (names : List String) : List SType → List ArrowField → Nat → List ArrowField
  | [], _, _ => []
  | _ :: _, [], _ => []
  | t :: ts, a :: arest, idx =>
      (if isDroppedAt names idx t then [] else [a])
        ++ kept_arrow names ts arest (idx + count_fields t)

/-- Flattened start offset of the k-th top-level field, relative to the
start of the list. -/
def span_before : List SType → Nat → Nat
  | _, 0 => 0
  | [], _ + 1 => 0
  | t :: ts, k + 1 => count_fields t + span_before ts k

/-- Sum of the spans of the kept fields among the first k top-level fields,
walking from flattened start index idx. -/
def kept_span_before (names : List String) : List SType → Nat → Nat → Nat
  | _, _, 0 => 0
  | [], _, _ + 1 => 0
  | t :: ts, idx, k + 1 =>
      (if isDroppedAt names idx t then 0 else count_fields t)
        + kept_span_before names ts (idx + count_fields t) k

/-- Does a reference segment have one of the rejected shapes: a list-element
or map-key reference, or a struct-field reference with a nested child. -/
def segRejected : RefSegment → Bool
  | .listElement _ _ => true
  | .mapKey _ => true
  | .structField _ child => child.isSome

/-- Does a reference type have one of the rejected shapes: a masked
reference, or a direct reference with a rejected segment. -/
def refRejected : ReferenceType → Bool
  | .maskedReference => true
  | .directReference seg => segRejected seg

mutual
/-- Structural containment, anywhere in the tree, of one of the constructs
the claim lists: a window function, a subquery, a masked reference, a
list-element or map-key reference, or a struct-field reference with a nested
child reference. -/
def contains_rejected : Expression → Bool
  | .literal => false
  | .nested children => contains_rejected_list children
  | .enum => false
  | .dynamicParameter => false
  | .scalarFunction args arguments =>
      contains_rejected_list args || contains_rejected_args arguments
  | .windowFunction => true
  | .subquery => true
  | .ifThen ifs elseExpr => contains_rejected_ifs ifs || contains_rejected elseExpr
  | .switchExpr thens elseExpr =>
      contains_rejected_list thens || contains_rejected elseExpr
  | .singularOrList value options =>
      contains_rejected value || contains_rejected_list options
  | .multiOrList value options =>
      contains_rejected_list value || contains_rejected_records options
  | .cast input => contains_rejected input
  | .selection refType rootType =>
      refRejected refType ||
        match rootType with
        | .expressionRoot e => contains_rejected e
        | .rootReference => false
        | .outerReference _ => false

/-- Containment over a list of expressions. -/
def contains_rejected_list : List Expression → Bool
  | [] => false
  | e :: es => contains_rejected e || contains_rejected_list es

/-- Containment over function arguments. -/
def contains_rejected_args : List ArgType → Bool
  | [] => false
  | .value e :: rest => contains_rejected e || contains_rejected_args rest
  | .enumArg _ :: rest => contains_rejected_args rest
  | .typeArg :: rest => contains_rejected_args rest

/-- Containment over if/then clauses. -/
def contains_rejected_ifs : List (Expression × Expression) → Bool
  | [] => false
  | (c, t) :: rest =>
      contains_rejected c || contains_rejected t || contains_rejected_ifs rest

/-- Containment over option records. -/
def contains_rejected_records : List (List Expression) → Bool
  | [] => false
  | r :: rest => contains_rejected_list r || contains_rejected_records rest
end

mutual
/-- One of the listed constructs occurs at a position the remapper visits:
as contains_rejected, but not descending into the children of a nested
literal value or the sub-expression root of a field reference, and counting
the reference-shape rejections only on a direct-input (root-reference)
field reference. -/
def visited_rejectable : Expression → Bool
  | .literal => false
  | .nested _ => false
  | .enum => false
  | .dynamicParameter => false
  | .scalarFunction args arguments =>
      visited_rejectable_list args || visited_rejectable_args arguments
  | .windowFunction => true
  | .subquery => true
  | .ifThen ifs elseExpr => visited_rejectable_ifs ifs || visited_rejectable elseExpr
  | .switchExpr thens elseExpr =>
      visited_rejectable_list thens || visited_rejectable elseExpr
  | .singularOrList value options =>
      visited_rejectable value || visited_rejectable_list options
  | .multiOrList value options =>
      visited_rejectable_list value || visited_rejectable_records options
  | .cast input => visited_rejectable input
  | .selection refType rootType =>
      match rootType with
      | .rootReference => refRejected refType
      | .expressionRoot _ => false
      | .outerReference _ => false

/-- Visited containment over a list of expressions. -/
def visited_rejectable_list : List Expression → Bool
  | [] => false
  | e :: es => visited_rejectable e || visited_rejectable_list es

/-- Visited containment over function arguments. -/
def visited_rejectable_args : List ArgType → Bool
  | [] => false
  | .value e :: rest => visited_rejectable e || visited_rejectable_args rest
  | .enumArg _ :: rest => visited_rejectable_args rest
  | .typeArg :: rest => visited_rejectable_args rest

/-- Visited containment over if/then clauses. -/
def visited_rejectable_ifs : List (Expression × Expression) → Bool
  | [] => false
  | (c, t) :: rest =>
      visited_rejectable c || visited_rejectable t || visited_rejectable_ifs rest

/-- Visited containment over option records. -/
def visited_rejectable_records : List (List Expression) → Bool
  | [] => false
  | r :: rest => visited_rejectable_list r || visited_rejectable_records rest
end

/-- Is a column qualifier either absent or the bare synthetic dummy table. -/
def qualOkDummy : Option TableRef → Bool
  | none => true
  | some (.bare t) => t == "dummy"
  | some (.partialRef _ _) => false
  | some (.full _ _ _) => false

/-- Every column qualifier in the tree is absent or the bare dummy table. -/
def all_quals_dummy_or_none : DFExpr → Bool
  | .column c => qualOkDummy c.relation
  | .literalInt _ => true
  | .binaryExpr l _ r => all_quals_dummy_or_none l && all_quals_dummy_or_none r

/-- The expected result of the final pass as the spec words it: every column
qualified with the dummy table becomes the unqualified column with the same
name (and spans), every other column is untouched. -/
def unqualify_dummy : DFExpr → DFExpr
  | .column c =>
      if c.relation = some (.bare "dummy") then
        .column { relation := none, name := c.name, spans := c.spans }
      else
        .column c
  | .literalInt v => .literalInt v
  | .binaryExpr l op r => .binaryExpr (unqualify_dummy l) op (unqualify_dummy r)

/-!
Concrete inputs used by counterexamples and witnesses.
-/

/-- A representable leaf type node. -/
def leafI32 : SType := .mk (.leaf "i32")

/-- A record type node with one leaf child: flattened span 2. -/
def nestedStructType : SType := .mk (.structKind (.mk 0 0 [leafI32]))

/-- Wire schema with a single nested record field: two flattened slots, one
top-level node. -/
def cexNestedNS : NamedStruct := ⟨["s", "c"], some (.mk 0 0 [nestedStructType])⟩

/-- Matching native schema with one top-level field. -/
def cexNestedArrow : ArrowSchema := ⟨[⟨"s", "structType", true⟩]⟩

/-- Wire schema of the placeholder scenario: a placeholder-named field
followed by a real field x. -/
def scenNS : NamedStruct :=
  ⟨["__unlikely_name_placeholder_0", "x"], some (.mk 0 0 [leafI32, leafI32])⟩

/-- Native schema of the placeholder scenario. -/
def scenArrow : ArrowSchema := ⟨[⟨"ph", "i32", true⟩, ⟨"x", "i32", true⟩]⟩

/-- One-field wire schema for the fast-path witness. -/
def simpleNS : NamedStruct := ⟨["x"], some (.mk 0 0 [leafI32])⟩

/-- One-field native schema. -/
def simpleArrow : ArrowSchema := ⟨[⟨"x", "i32", true⟩]⟩

/-- A bare struct-field reference to flattened index 0. -/
def selX : Expression := .selection (.directReference (.structField 0 none)) .rootReference

/-- An envelope with one scalar expression over the one-field schema. -/
def envSimple : ExtendedExpression := ⟨[⟨some (.expressionET selX)⟩], some simpleNS, []⟩

/-- An envelope with zero referenced expressions. -/
def envEmpty : ExtendedExpression := ⟨[], some simpleNS, []⟩

/-- An envelope with two referenced expressions. -/
def envTwo : ExtendedExpression :=
  ⟨[⟨some (.expressionET .literal)⟩, ⟨some (.expressionET .literal)⟩], some simpleNS, []⟩

/-- An envelope with zero referenced expressions and no base schema. -/
def envNoSchemaNoExprs : ExtendedExpression := ⟨[], none, []⟩

/-- An envelope with one scalar expression and no base schema. -/
def envNoSchema : ExtendedExpression := ⟨[⟨some (.expressionET .literal)⟩], none, []⟩

/-- A field reference whose root is a sub-expression containing a window
function: the tree contains a window function at a position the remapper
never visits. -/
def cexRootExpr : Expression :=
  .selection (.directReference (.structField 0 none)) (.expressionRoot .windowFunction)

/-- An envelope whose expression hides a window function inside the
sub-expression root of a field reference, over the placeholder schema (so
that reconciliation drops a field and the remap pass runs). -/
def envC4 : ExtendedExpression := ⟨[⟨some (.expressionET cexRootExpr)⟩], some scenNS, []⟩

/-- The native comparison dummy.x less-than 0 as the external planner emits
it. -/
def dummyXLtZero : DFExpr :=
  .binaryExpr (.column ⟨some (.bare "dummy"), "x", []⟩) "Lt" (.literalInt 0)

/-- The expected unqualified comparison x less-than 0. -/
def unqualXLtZero : DFExpr :=
  .binaryExpr (.column ⟨none, "x", []⟩) "Lt" (.literalInt 0)

/-- A comparison carrying a foreign (non-dummy) qualifier. -/
def foreignQualExpr : DFExpr :=
  .binaryExpr (.column ⟨some (.bare "other"), "x", []⟩) "Lt" (.literalInt 0)

/-!
Helper lemmas and claim theorems.
-/

mutual

theorem remap_err_shape (mapping : List (Nat × Nat)) :
    (e : Expression) → ∀ er, remap_expr_references mapping e = .error er →
      ∃ msg, er = .invalidInput msg srcLoc
  | .literal => by intro er h; simp [remap_expr_references] at h
  | .nested children => by intro er h; simp [remap_expr_references] at h
  | .enum => by intro er h; simp [remap_expr_references] at h
  | .dynamicParameter => by intro er h; simp [remap_expr_references] at h
  | .windowFunction => by
      intro er h
      rw [remap_expr_references] at h
      exact ⟨_, (Except.error.inj h).symm⟩
  | .subquery => by
      intro er h
      rw [remap_expr_references] at h
      exact ⟨_, (Except.error.inj h).symm⟩
  | .scalarFunction args arguments => by
      intro er h
      rw [remap_expr_references] at h
      cases hargs : remap_list mapping args with
      | error e1 =>
          rw [hargs] at h
          exact (Except.error.inj h) ▸ remap_list_err_shape mapping args e1 hargs
      | ok args2 =>
          rw [hargs] at h
          cases harguments : remap_args mapping arguments with
          | error e2 =>
              rw [harguments] at h
              exact (Except.error.inj h) ▸ remap_args_err_shape mapping arguments e2 harguments
          | ok arguments2 => rw [harguments] at h; exact absurd h (by simp)
  | .ifThen ifs elseExpr => by
      intro er h
      rw [remap_expr_references] at h
      cases h1 : remap_ifs mapping ifs with
      | error e1 =>
          rw [h1] at h
          exact (Except.error.inj h) ▸ remap_ifs_err_shape mapping ifs e1 h1
      | ok v1 =>
          rw [h1] at h
          cases h2 : remap_expr_references mapping elseExpr with
          | error e2 =>
              rw [h2] at h
              exact (Except.error.inj h) ▸ remap_err_shape mapping elseExpr e2 h2
          | ok v2 => rw [h2] at h; exact absurd h (by simp)
  | .switchExpr thens elseExpr => by
      intro er h
      rw [remap_expr_references] at h
      cases h1 : remap_list mapping thens with
      | error e1 =>
          rw [h1] at h
          exact (Except.error.inj h) ▸ remap_list_err_shape mapping thens e1 h1
      | ok v1 =>
          rw [h1] at h
          cases h2 : remap_expr_references mapping elseExpr with
          | error e2 =>
              rw [h2] at h
              exact (Except.error.inj h) ▸ remap_err_shape mapping elseExpr e2 h2
          | ok v2 => rw [h2] at h; exact absurd h (by simp)
  | .singularOrList value options => by
      intro er h
      rw [remap_expr_references] at h
      cases h1 : remap_list mapping options with
      | error e1 =>
          rw [h1] at h
          exact (Except.error.inj h) ▸ remap_list_err_shape mapping options e1 h1
      | ok v1 =>
          rw [h1] at h
          cases h2 : remap_expr_references mapping value with
          | error e2 =>
              rw [h2] at h
              exact (Except.error.inj h) ▸ remap_err_shape mapping value e2 h2
          | ok v2 => rw [h2] at h; exact absurd h (by simp)
  | .multiOrList value options => by
      intro er h
      rw [remap_expr_references] at h
      cases h1 : remap_records mapping options with
      | error e1 =>
          rw [h1] at h
          exact (Except.error.inj h) ▸ remap_records_err_shape mapping options e1 h1
      | ok v1 =>
          rw [h1] at h
          cases h2 : remap_list mapping value with
          | error e2 =>
              rw [h2] at h
              exact (Except.error.inj h) ▸ remap_list_err_shape mapping value e2 h2
          | ok v2 => rw [h2] at h; exact absurd h (by simp)
  | .cast input => by
      intro er h
      rw [remap_expr_references] at h
      cases h1 : remap_expr_references mapping input with
      | error e1 =>
          rw [h1] at h
          exact (Except.error.inj h) ▸ remap_err_shape mapping input e1 h1
      | ok v1 => rw [h1] at h; exact absurd h (by simp)
  | .selection refType rootType => by
      intro er h
      cases rootType with
      | expressionRoot e => rw [remap_expr_references] at h; exact absurd h (by simp)
      | outerReference n => rw [remap_expr_references] at h; exact absurd h (by simp)
      | rootReference =>
        cases refType with
        | maskedReference =>
            rw [remap_expr_references] at h
            exact ⟨_, (Except.error.inj h).symm⟩
        | directReference seg =>
          cases seg with
          | listElement o c =>
              rw [remap_expr_references] at h
              exact ⟨_, (Except.error.inj h).symm⟩
          | mapKey c =>
              rw [remap_expr_references] at h
              exact ⟨_, (Except.error.inj h).symm⟩
          | structField f child =>
            rw [remap_expr_references] at h
            by_cases hc : child.isSome
            · rw [if_pos hc] at h
              exact ⟨_, (Except.error.inj h).symm⟩
            · rw [if_neg hc] at h
              cases hl : List.lookup (usize_of_i32 f) mapping with
              | some ni => rw [hl] at h; exact absurd h (by simp)
              | none => rw [hl] at h; exact ⟨_, (Except.error.inj h).symm⟩

theorem remap_list_err_shape (mapping : List (Nat × Nat)) :
    (es : List Expression) → ∀ er, remap_list mapping es = .error er →
      ∃ msg, er = .invalidInput msg srcLoc
  | [] => by intro er h; simp [remap_list] at h
  | e :: es => by
      intro er h
      rw [remap_list] at h
      cases h1 : remap_expr_references mapping e with
      | error e1 =>
          rw [h1] at h
          exact (Except.error.inj h) ▸ remap_err_shape mapping e e1 h1
      | ok v1 =>
          rw [h1] at h
          cases h2 : remap_list mapping es with
          | error e2 =>
              rw [h2] at h
              exact (Except.error.inj h) ▸ remap_list_err_shape mapping es e2 h2
          | ok v2 => rw [h2] at h; exact absurd h (by simp)

theorem remap_args_err_shape (mapping : List (Nat × Nat)) :
    (xs : List ArgType) → ∀ er, remap_args mapping xs = .error er →
      ∃ msg, er = .invalidInput msg srcLoc
  | [] => by intro er h; simp [remap_args] at h
  | .value e :: rest => by
      intro er h
      rw [remap_args] at h
      cases h1 : remap_expr_references mapping e with
      | error e1 =>
          rw [h1] at h
          exact (Except.error.inj h) ▸ remap_err_shape mapping e e1 h1
      | ok v1 =>
          rw [h1] at h
          cases h2 : remap_args mapping rest with
          | error e2 =>
              rw [h2] at h
              exact (Except.error.inj h) ▸ remap_args_err_shape mapping rest e2 h2
          | ok v2 => rw [h2] at h; exact absurd h (by simp)
  | .enumArg s :: rest => by
      intro er h
      rw [remap_args] at h
      cases h2 : remap_args mapping rest with
      | error e2 =>
          rw [h2] at h
          exact (Except.error.inj h) ▸ remap_args_err_shape mapping rest e2 h2
      | ok v2 => rw [h2] at h; exact absurd h (by simp)
  | .typeArg :: rest => by
      intro er h
      rw [remap_args] at h
      cases h2 : remap_args mapping rest with
      | error e2 =>
          rw [h2] at h
          exact (Except.error.inj h) ▸ remap_args_err_shape mapping rest e2 h2
      | ok v2 => rw [h2] at h; exact absurd h (by simp)

theorem remap_ifs_err_shape (mapping : List (Nat × Nat)) :
    (xs : List (Expression × Expression)) → ∀ er, remap_ifs mapping xs = .error er →
      ∃ msg, er = .invalidInput msg srcLoc
  | [] => by intro er h; simp [remap_ifs] at h
  | (c, t) :: rest => by
      intro er h
      rw [remap_ifs] at h
      cases h1 : remap_expr_references mapping c with
      | error e1 =>
          rw [h1] at h
          exact (Except.error.inj h) ▸ remap_err_shape mapping c e1 h1
      | ok v1 =>
          rw [h1] at h
          cases h2 : remap_expr_references mapping t with
          | error e2 =>
              rw [h2] at h
              exact (Except.error.inj h) ▸ remap_err_shape mapping t e2 h2
          | ok v2 =>
              rw [h2] at h
              cases h3 : remap_ifs mapping rest with
              | error e3 =>
                  rw [h3] at h
                  exact (Except.error.inj h) ▸ remap_ifs_err_shape mapping rest e3 h3
              | ok v3 => rw [h3] at h; exact absurd h (by simp)

theorem remap_records_err_shape (mapping : List (Nat × Nat)) :
    (xs : List (List Expression)) → ∀ er, remap_records mapping xs = .error er →
      ∃ msg, er = .invalidInput msg srcLoc
  | [] => by intro er h; simp [remap_records] at h
  | r :: rest => by
      intro er h
      rw [remap_records] at h
      cases h1 : remap_list mapping r with
      | error e1 =>
          rw [h1] at h
          exact (Except.error.inj h) ▸ remap_list_err_shape mapping r e1 h1
      | ok v1 =>
          rw [h1] at h
          cases h2 : remap_records mapping rest with
          | error e2 =>
              rw [h2] at h
              exact (Except.error.inj h) ▸ remap_records_err_shape mapping rest e2 h2
          | ok v2 => rw [h2] at h; exact absurd h (by simp)

end



mutual

theorem remap_visited_err (mapping : List (Nat × Nat)) :
    (e : Expression) → visited_rejectable e = true →
      ∃ msg, remap_expr_references mapping e = .error (.invalidInput msg srcLoc)
  | .literal => by intro h; exact absurd h (by simp [visited_rejectable])
  | .nested children => by intro h; exact absurd h (by simp [visited_rejectable])
  | .enum => by intro h; exact absurd h (by simp [visited_rejectable])
  | .dynamicParameter => by intro h; exact absurd h (by simp [visited_rejectable])
  | .windowFunction => by
      intro h
      exact ⟨_, by rw [remap_expr_references]⟩
  | .subquery => by
      intro h
      exact ⟨_, by rw [remap_expr_references]⟩
  | .scalarFunction args arguments => by
      intro h
      rw [visited_rejectable, Bool.or_eq_true] at h
      rw [remap_expr_references]
      rcases h with h | h
      · obtain ⟨msg, hm⟩ := remap_list_visited_err mapping args h
        exact ⟨msg, by rw [hm]⟩
      · cases h1 : remap_list mapping args with
        | error e1 =>
            obtain ⟨msg, hm⟩ := remap_list_err_shape mapping args e1 h1
            exact ⟨msg, by rw [hm]⟩
        | ok v1 =>
            obtain ⟨msg, hm⟩ := remap_args_visited_err mapping arguments h
            exact ⟨msg, by rw [hm]⟩
  | .ifThen ifs elseExpr => by
      intro h
      rw [visited_rejectable, Bool.or_eq_true] at h
      rw [remap_expr_references]
      rcases h with h | h
      · obtain ⟨msg, hm⟩ := remap_ifs_visited_err mapping ifs h
        exact ⟨msg, by rw [hm]⟩
      · cases h1 : remap_ifs mapping ifs with
        | error e1 =>
            obtain ⟨msg, hm⟩ := remap_ifs_err_shape mapping ifs e1 h1
            exact ⟨msg, by rw [hm]⟩
        | ok v1 =>
            obtain ⟨msg, hm⟩ := remap_visited_err mapping elseExpr h
            exact ⟨msg, by rw [hm]⟩
  | .switchExpr thens elseExpr => by
      intro h
      rw [visited_rejectable, Bool.or_eq_true] at h
      rw [remap_expr_references]
      rcases h with h | h
      · obtain ⟨msg, hm⟩ := remap_list_visited_err mapping thens h
        exact ⟨msg, by rw [hm]⟩
      · cases h1 : remap_list mapping thens with
        | error e1 =>
            obtain ⟨msg, hm⟩ := remap_list_err_shape mapping thens e1 h1
            exact ⟨msg, by rw [hm]⟩
        | ok v1 =>
            obtain ⟨msg, hm⟩ := remap_visited_err mapping elseExpr h
            exact ⟨msg, by rw [hm]⟩
  | .singularOrList value options => by
      intro h
      rw [visited_rejectable, Bool.or_eq_true] at h
      rw [remap_expr_references]
      rcases h with h | h
      · cases h1 : remap_list mapping options with
        | error e1 =>
            obtain ⟨msg, hm⟩ := remap_list_err_shape mapping options e1 h1
            exact ⟨msg, by rw [hm]⟩
        | ok v1 =>
            obtain ⟨msg, hm⟩ := remap_visited_err mapping value h
            exact ⟨msg, by rw [hm]⟩
      · obtain ⟨msg, hm⟩ := remap_list_visited_err mapping options h
        exact ⟨msg, by rw [hm]⟩
  | .multiOrList value options => by
      intro h
      rw [visited_rejectable, Bool.or_eq_true] at h
      rw [remap_expr_references]
      rcases h with h | h
      · cases h1 : remap_records mapping options with
        | error e1 =>
            obtain ⟨msg, hm⟩ := remap_records_err_shape mapping options e1 h1
            exact ⟨msg, by rw [hm]⟩
        | ok v1 =>
            obtain ⟨msg, hm⟩ := remap_list_visited_err mapping value h
            exact ⟨msg, by rw [hm]⟩
      · obtain ⟨msg, hm⟩ := remap_records_visited_err mapping options h
        exact ⟨msg, by rw [hm]⟩
  | .cast input => by
      intro h
      rw [visited_rejectable] at h
      rw [remap_expr_references]
      obtain ⟨msg, hm⟩ := remap_visited_err mapping input h
      exact ⟨msg, by rw [hm]⟩
  | .selection refType rootType => by
      intro h
      cases rootType with
      | expressionRoot e => exact absurd h (by simp [visited_rejectable])
      | outerReference n => exact absurd h (by simp [visited_rejectable])
      | rootReference =>
        rw [visited_rejectable] at h
        cases refType with
        | maskedReference => exact ⟨_, by rw [remap_expr_references]⟩
        | directReference seg =>
          cases seg with
          | listElement o c => exact ⟨_, by rw [remap_expr_references]⟩
          | mapKey c => exact ⟨_, by rw [remap_expr_references]⟩
          | structField f child =>
            rw [refRejected, segRejected] at h
            exact ⟨_, by rw [remap_expr_references, if_pos h]⟩

theorem remap_list_visited_err (mapping : List (Nat × Nat)) :
    (es : List Expression) → visited_rejectable_list es = true →
      ∃ msg, remap_list mapping es = .error (.invalidInput msg srcLoc)
  | [] => by intro h; exact absurd h (by simp [visited_rejectable_list])
  | e :: es => by
      intro h
      rw [visited_rejectable_list, Bool.or_eq_true] at h
      rw [remap_list]
      rcases h with h | h
      · obtain ⟨msg, hm⟩ := remap_visited_err mapping e h
        exact ⟨msg, by rw [hm]⟩
      · cases h1 : remap_expr_references mapping e with
        | error e1 =>
            obtain ⟨msg, hm⟩ := remap_err_shape mapping e e1 h1
            exact ⟨msg, by rw [hm]⟩
        | ok v1 =>
            obtain ⟨msg, hm⟩ := remap_list_visited_err mapping es h
            exact ⟨msg, by rw [hm]⟩

theorem remap_args_visited_err (mapping : List (Nat × Nat)) :
    (xs : List ArgType) → visited_rejectable_args xs = true →
      ∃ msg, remap_args mapping xs = .error (.invalidInput msg srcLoc)
  | [] => by intro h; exact absurd h (by simp [visited_rejectable_args])
  | .value e :: rest => by
      intro h
      rw [visited_rejectable_args, Bool.or_eq_true] at h
      rw [remap_args]
      rcases h with h | h
      · obtain ⟨msg, hm⟩ := remap_visited_err mapping e h
        exact ⟨msg, by rw [hm]⟩
      · cases h1 : remap_expr_references mapping e with
        | error e1 =>
            obtain ⟨msg, hm⟩ := remap_err_shape mapping e e1 h1
            exact ⟨msg, by rw [hm]⟩
        | ok v1 =>
            obtain ⟨msg, hm⟩ := remap_args_visited_err mapping rest h
            exact ⟨msg, by rw [hm]⟩
  | .enumArg s :: rest => by
      intro h
      rw [visited_rejectable_args] at h
      rw [remap_args]
      obtain ⟨msg, hm⟩ := remap_args_visited_err mapping rest h
      exact ⟨msg, by rw [hm]⟩
  | .typeArg :: rest => by
      intro h
      rw [visited_rejectable_args] at h
      rw [remap_args]
      obtain ⟨msg, hm⟩ := remap_args_visited_err mapping rest h
      exact ⟨msg, by rw [hm]⟩

theorem remap_ifs_visited_err (mapping : List (Nat × Nat)) :
    (xs : List (Expression × Expression)) → visited_rejectable_ifs xs = true →
      ∃ msg, remap_ifs mapping xs = .error (.invalidInput msg srcLoc)
  | [] => by intro h; exact absurd h (by simp [visited_rejectable_ifs])
  | (c, t) :: rest => by
      intro h
      rw [visited_rejectable_ifs, Bool.or_eq_true, Bool.or_eq_true] at h
      rw [remap_ifs]
      rcases h with (h | h) | h
      · obtain ⟨msg, hm⟩ := remap_visited_err mapping c h
        exact ⟨msg, by rw [hm]⟩
      · cases h1 : remap_expr_references mapping c with
        | error e1 =>
            obtain ⟨msg, hm⟩ := remap_err_shape mapping c e1 h1
            exact ⟨msg, by rw [hm]⟩
        | ok v1 =>
            obtain ⟨msg, hm⟩ := remap_visited_err mapping t h
            exact ⟨msg, by rw [hm]⟩
      · cases h1 : remap_expr_references mapping c with
        | error e1 =>
            obtain ⟨msg, hm⟩ := remap_err_shape mapping c e1 h1
            exact ⟨msg, by rw [hm]⟩
        | ok v1 =>
          cases h2 : remap_expr_references mapping t with
          | error e2 =>
              obtain ⟨msg, hm⟩ := remap_err_shape mapping t e2 h2
              exact ⟨msg, by rw [hm]⟩
          | ok v2 =>
              obtain ⟨msg, hm⟩ := remap_ifs_visited_err mapping rest h
              exact ⟨msg, by rw [hm]⟩

theorem remap_records_visited_err (mapping : List (Nat × Nat)) :
    (xs : List (List Expression)) → visited_rejectable_records xs = true →
      ∃ msg, remap_records mapping xs = .error (.invalidInput msg srcLoc)
  | [] => by intro h; exact absurd h (by simp [visited_rejectable_records])
  | r :: rest => by
      intro h
      rw [visited_rejectable_records, Bool.or_eq_true] at h
      rw [remap_records]
      rcases h with h | h
      · obtain ⟨msg, hm⟩ := remap_list_visited_err mapping r h
        exact ⟨msg, by rw [hm]⟩
      · cases h1 : remap_list mapping r with
        | error e1 =>
            obtain ⟨msg, hm⟩ := remap_list_err_shape mapping r e1 h1
            exact ⟨msg, by rw [hm]⟩
        | ok v1 =>
            obtain ⟨msg, hm⟩ := remap_records_visited_err mapping rest h
            exact ⟨msg, by rw [hm]⟩

end



/-- Every type node has positive flattened span. -/
theorem count_fields_pos (t : SType) : 0 < count_fields t := by
  cases t with
  | mk k =>
    cases k with
    | structKind s => cases s with | mk n tv ts => simp [count_fields]
    | userDefined a => simp [count_fields]
    | userDefinedTypeReference a => simp [count_fields]
    | leaf tag => simp [count_fields]

/-- rangeEntries has one entry per offset. -/
theorem rangeEntries_length (old new n : Nat) :
    (rangeEntries old new n).length = n := by
  induction n generalizing old new with
  | zero => rfl
  | succ n ih => rw [rangeEntries, List.length_cons, ih]

/-- Keys of rangeEntries lie in the covered interval. -/
theorem rangeEntries_mem {old new n : Nat} {p : Nat × Nat}
    (h : p ∈ rangeEntries old new n) : old ≤ p.1 ∧ p.1 < old + n := by
  induction n generalizing old new with
  | zero => simp [rangeEntries] at h
  | succ n ih =>
    rw [rangeEntries, List.mem_cons] at h
    rcases h with h | h
    · subst h; omega
    · have := ih h; omega

/-- Lookup at the head key. -/
theorem lookup_cons_self (k b : Nat) (rest : List (Nat × Nat)) :
    List.lookup k ((k, b) :: rest) = some b := by
  simp [List.lookup]

/-- Lookup skips a different head key. -/
theorem lookup_cons_ne {k a : Nat} (h : k ≠ a) (b : Nat) (rest : List (Nat × Nat)) :
    List.lookup k ((a, b) :: rest) = List.lookup k rest := by
  have hb : (k == a) = false := beq_eq_false_iff_ne.mpr h
  simp [List.lookup, hb]

/-- Lookup in rangeEntries: a hit inside the interval maps the offset, a key
outside misses. -/
theorem lookup_rangeEntries (old new n k : Nat) :
    List.lookup k (rangeEntries old new n)
      = if old ≤ k ∧ k < old + n then some (new + (k - old)) else none := by
  induction n generalizing old new with
  | zero =>
    rw [rangeEntries, if_neg (by omega)]
    rfl
  | succ n ih =>
    rw [rangeEntries]
    by_cases hk : k = old
    · subst hk
      rw [lookup_cons_self, if_pos (by omega)]
      simp
    · rw [lookup_cons_ne hk, ih (old + 1) (new + 1)]
      by_cases hin : old + 1 ≤ k ∧ k < old + 1 + n
      · rw [if_pos hin, if_pos (by omega)]
        have hko : k - old = (k - (old + 1)) + 1 := by omega
        rw [hko]
        have : new + 1 + (k - (old + 1)) = new + (k - (old + 1) + 1) := by omega
        rw [this]
      · rw [if_neg hin, if_neg (by omega)]

/-- Lookup distributes over append, left hit. -/
theorem lookup_append_some {l1 l2 : List (Nat × Nat)} {k : Nat} {v : Nat}
    (h : List.lookup k l1 = some v) : List.lookup k (l1 ++ l2) = some v := by
  induction l1 with
  | nil => simp [List.lookup] at h
  | cons p rest ih =>
    cases p with
    | mk a b =>
      by_cases hk : k = a
      · subst hk
        rw [lookup_cons_self] at h
        rw [List.cons_append, lookup_cons_self]
        exact h
      · rw [lookup_cons_ne hk] at h
        rw [List.cons_append, lookup_cons_ne hk]
        exact ih h

/-- Lookup distributes over append, left miss. -/
theorem lookup_append_none {l1 l2 : List (Nat × Nat)} {k : Nat}
    (h : List.lookup k l1 = none) : List.lookup k (l1 ++ l2) = List.lookup k l2 := by
  induction l1 with
  | nil => rfl
  | cons p rest ih =>
    cases p with
    | mk a b =>
      by_cases hk : k = a
      · subst hk
        rw [lookup_cons_self] at h
        exact absurd h (by simp)
      · rw [lookup_cons_ne hk] at h
        rw [List.cons_append, lookup_cons_ne hk]
        exact ih h

/-- A key different from every key of the list misses. -/
theorem lookup_none_of_forall {l : List (Nat × Nat)} {k : Nat}
    (h : ∀ p ∈ l, p.1 ≠ k) : List.lookup k l = none := by
  induction l with
  | nil => rfl
  | cons p rest ih =>
    cases p with
    | mk a b =>
      have ha : a ≠ k := h (a, b) (by simp)
      rw [lookup_cons_ne (by omega)]
      exact ih (fun q hq => h q (by simp [hq]))


/-- The kept-field condition of the loop equals the negation of the spec
drop rule, given the name the loop read. -/
theorem keep_cond_eq {names : List String} {idx : Nat} {nm : String}
    (h : names[idx]? = some nm) (t : SType) :
    (!(strStartsWith nm placeholderName) && !(isUserDefinedKind (SType.kind t)))
      = !(isDroppedAt names idx t) := by
  simp [isDroppedAt, h, Bool.not_or]

/-- Characterization of a successful reconciliation loop: the kept wire and
native fields are exactly those the drop rule retains, the map has one entry
per kept flattened slot, and every key is at least the starting cursor. -/
theorem reconcile_ok_parts (names : List String) :
    ∀ (ts : List SType) (arest : List ArrowField) (fc fi : Nat)
      (ks : List SType) (ka : List ArrowField) (mp : List (Nat × Nat)),
      reconcile_fields names ts arest fc fi = .ok (ks, ka, mp) →
      ts.length = arest.length →
      ks = kept_types names ts fi ∧ ka = kept_arrow names ts arest fi ∧
        mp.length = kept_span_sum names ts fi ∧ (∀ p ∈ mp, fi ≤ p.1)
  | [], arest, fc, fi, ks, ka, mp => by
      intro h _
      rw [reconcile_fields] at h
      injection h with h
      injection h with h1 h
      injection h with h2 h3
      subst h1; subst h2; subst h3
      refine ⟨rfl, ?_, rfl, by simp⟩
      cases arest <;> rfl
  | t :: ts, [], fc, fi, ks, ka, mp => by
      intro _ hlen
      exact absurd hlen (by simp)
  | t :: ts, a :: arest, fc, fi, ks, ka, mp => by
      intro h hlen
      rw [reconcile_fields] at h
      cases hnm : names[fi]? with
      | none => rw [hnm] at h; exact absurd h (by simp)
      | some nm =>
        rw [hnm] at h
        simp only at h
        rw [keep_cond_eq hnm t] at h
        have hlen2 : ts.length = arest.length := by simpa using hlen
        cases hd : isDroppedAt names fi t with
        | true =>
          rw [hd] at h
          simp only [Bool.not_true, Bool.false_eq_true, if_false] at h
          obtain ⟨h1, h2, h3, h4⟩ :=
            reconcile_ok_parts names ts arest fc (fi + count_fields t) ks ka mp h hlen2
          refine ⟨?_, ?_, ?_, ?_⟩
          · rw [kept_types, hd]; simpa using h1
          · rw [kept_arrow, hd]; simpa using h2
          · rw [kept_span_sum, hd]; simpa using h3
          · intro p hp
            have := h4 p hp
            omega
        | false =>
          rw [hd] at h
          simp only [Bool.not_false, if_true] at h
          cases hrec : reconcile_fields names ts arest (fc + count_fields t) (fi + count_fields t) with
          | ok r =>
            obtain ⟨ks2, ka2, mp2⟩ := r
            rw [hrec] at h
            injection h with h
            injection h with h1 h
            injection h with h2 h3
            obtain ⟨g1, g2, g3, g4⟩ :=
              reconcile_ok_parts names ts arest (fc + count_fields t) (fi + count_fields t)
                ks2 ka2 mp2 hrec hlen2
            refine ⟨?_, ?_, ?_, ?_⟩
            · rw [kept_types, hd]
              subst h1
              simpa using g1
            · rw [kept_arrow, hd]
              subst h2
              simpa using g2
            · rw [kept_span_sum, hd]
              subst h3
              rw [List.length_append, rangeEntries_length, g3]
              simp
            · intro p hp
              subst h3
              rw [List.mem_append] at hp
              rcases hp with hp | hp
              · exact (rangeEntries_mem hp).1
              · have := g4 p hp
                omega
          | err e => rw [hrec] at h; exact absurd h (by simp)
          | panic => rw [hrec] at h; exact absurd h (by simp)


/-- The loop never returns a typed error, and succeeds whenever the name
vector covers the flattened range it will index. -/
theorem reconcile_total (names : List String) :
    ∀ (ts : List SType) (arest : List ArrowField) (fc fi : Nat),
      fi + count_fields_list ts ≤ names.length →
      ∃ r, reconcile_fields names ts arest fc fi = .ok r
  | [], arest, fc, fi => by
      intro _
      exact ⟨_, rfl⟩
  | t :: ts, [], fc, fi => by
      intro _
      exact ⟨_, rfl⟩
  | t :: ts, a :: arest, fc, fi => by
      intro hle
      rw [count_fields_list] at hle
      have hfi : fi < names.length := by
        have := count_fields_pos t
        omega
      have hnm : names[fi]? = some names[fi] := List.getElem?_eq_getElem hfi
      rw [reconcile_fields, hnm]
      simp only
      rw [keep_cond_eq hnm t]
      cases hd : isDroppedAt names fi t with
      | true =>
        simp only [Bool.not_true, Bool.false_eq_true, if_false]
        exact reconcile_total names ts arest fc (fi + count_fields t) (by omega)
      | false =>
        simp only [Bool.not_false, if_true]
        obtain ⟨r, hr⟩ := reconcile_total names ts arest
          (fc + count_fields t) (fi + count_fields t) (by omega)
        obtain ⟨ks, ka, mp⟩ := r
        rw [hr]
        exact ⟨_, rfl⟩

/-- The kept wire list has one element per kept field. -/
theorem kept_types_length (names : List String) :
    ∀ (ts : List SType) (idx : Nat),
      (kept_types names ts idx).length = kept_field_count names ts idx
  | [], idx => rfl
  | t :: ts, idx => by
      rw [kept_types, kept_field_count, List.length_append,
        kept_types_length names ts (idx + count_fields t)]
      cases isDroppedAt names idx t <;> simp

/-- The kept native list has one element per kept field. -/
theorem kept_arrow_length (names : List String) :
    ∀ (ts : List SType) (arest : List ArrowField) (idx : Nat),
      ts.length = arest.length →
      (kept_arrow names ts arest idx).length = kept_field_count names ts idx
  | [], _, idx => by intro _; rfl
  | t :: ts, [], idx => by intro hlen; exact absurd hlen (by simp)
  | t :: ts, a :: arest, idx => by
      intro hlen
      rw [kept_arrow, kept_field_count, List.length_append,
        kept_arrow_length names ts arest (idx + count_fields t) (by simpa using hlen)]
      cases isDroppedAt names idx t <;> simp

/-- The rebuilt name vector has exactly one slot per map entry. -/
theorem rebuild_names_length (oldNames : List String) (mapping : List (Nat × Nat)) :
    (rebuild_names oldNames mapping).length = mapping.length := by
  rw [rebuild_names]
  have hstep : ∀ (l : List (Nat × String)) (acc : List String),
      (l.foldl (fun acc p =>
        match List.lookup p.1 mapping with
        | some newIdx => acc.set newIdx p.2
        | none => acc) acc).length = acc.length := by
    intro l
    induction l with
    | nil => intro acc; rfl
    | cons p rest ih =>
      intro acc
      rw [List.foldl_cons, ih]
      cases List.lookup p.1 mapping with
      | some ni => simp
      | none => rfl
  rw [hstep, List.length_replicate]


/-- Index-map characterization: for the k-th top-level field, every flattened
slot of a dropped field is absent from the map and every flattened slot of a
kept field maps its offset onto the running kept-span total. -/
theorem reconcile_mapping (names : List String) :
    ∀ (ts : List SType) (arest : List ArrowField) (fc fi : Nat)
      (ks : List SType) (ka : List ArrowField) (mp : List (Nat × Nat)),
      reconcile_fields names ts arest fc fi = .ok (ks, ka, mp) →
      ts.length = arest.length →
      ∀ (k : Nat) (t : SType), ts[k]? = some t →
        (isDroppedAt names (fi + span_before ts k) t = true →
          ∀ i, i < count_fields t →
            List.lookup (fi + span_before ts k + i) mp = none) ∧
        (isDroppedAt names (fi + span_before ts k) t = false →
          ∀ i, i < count_fields t →
            List.lookup (fi + span_before ts k + i) mp
              = some (fc + kept_span_before names ts fi k + i))
  | [], arest, fc, fi, ks, ka, mp => by
      intro _ _ k t hk
      simp at hk
  | t0 :: ts, [], fc, fi, ks, ka, mp => by
      intro _ hlen
      exact absurd hlen (by simp)
  | t0 :: ts, a :: arest, fc, fi, ks, ka, mp => by
      intro h hlen k t hk
      rw [reconcile_fields] at h
      cases hnm : names[fi]? with
      | none => rw [hnm] at h; exact absurd h (by simp)
      | some nm =>
        rw [hnm] at h
        simp only at h
        rw [keep_cond_eq hnm t0] at h
        have hlen2 : ts.length = arest.length := by simpa using hlen
        cases hd : isDroppedAt names fi t0 with
        | true =>
          rw [hd] at h
          simp only [Bool.not_true, Bool.false_eq_true, if_false] at h
          cases k with
          | zero =>
            rw [List.getElem?_cons_zero] at hk
            injection hk with hk
            subst hk
            have hs0 : span_before (t0 :: ts) 0 = 0 := rfl
            constructor
            · intro _ i hi
              obtain ⟨_, _, _, h4⟩ :=
                reconcile_ok_parts names ts arest fc (fi + count_fields t0) ks ka mp h hlen2
              apply lookup_none_of_forall
              intro p hp
              have := h4 p hp
              rw [hs0]
              omega
            · intro hfalse
              rw [hs0, Nat.add_zero, hd] at hfalse
              exact absurd hfalse (by simp)
          | succ k =>
            rw [List.getElem?_cons_succ] at hk
            have IH := reconcile_mapping names ts arest fc (fi + count_fields t0)
              ks ka mp h hlen2 k t hk
            have hs : fi + span_before (t0 :: ts) (k + 1)
                = fi + count_fields t0 + span_before ts k := by
              rw [span_before]; omega
            constructor
            · intro hdrop i hi
              rw [hs] at hdrop ⊢
              exact IH.1 hdrop i hi
            · intro hkeep i hi
              rw [hs] at hkeep ⊢
              have ho : fc + kept_span_before names (t0 :: ts) fi (k + 1)
                  = fc + kept_span_before names ts (fi + count_fields t0) k := by
                rw [kept_span_before, hd]
                simp
              rw [ho]
              exact IH.2 hkeep i hi
        | false =>
          rw [hd] at h
          simp only [Bool.not_false, if_true] at h
          cases hrec : reconcile_fields names ts arest
              (fc + count_fields t0) (fi + count_fields t0) with
          | ok r =>
            obtain ⟨ks2, ka2, mp2⟩ := r
            rw [hrec] at h
            injection h with h
            injection h with h1 h
            injection h with h2 h3
            subst h3
            cases k with
            | zero =>
              rw [List.getElem?_cons_zero] at hk
              injection hk with hk
              subst hk
              have hs0 : span_before (t0 :: ts) 0 = 0 := rfl
              constructor
              · intro hdrop
                rw [hs0, Nat.add_zero, hd] at hdrop
                exact absurd hdrop (by simp)
              · intro _ i hi
                rw [hs0, Nat.add_zero]
                have hrange : List.lookup (fi + i)
                    (rangeEntries fi fc (count_fields t0)) = some (fc + i) := by
                  rw [lookup_rangeEntries, if_pos (by omega)]
                  congr 1
                  omega
                rw [lookup_append_some hrange]
                have hksb : kept_span_before names (t0 :: ts) fi 0 = 0 := rfl
                rw [hksb, Nat.add_zero]
            | succ k =>
              rw [List.getElem?_cons_succ] at hk
              have IH := reconcile_mapping names ts arest
                (fc + count_fields t0) (fi + count_fields t0) ks2 ka2 mp2 hrec hlen2 k t hk
              have hs : fi + span_before (t0 :: ts) (k + 1)
                  = fi + count_fields t0 + span_before ts k := by
                rw [span_before]; omega
              have hskip : ∀ i, List.lookup (fi + count_fields t0 + span_before ts k + i)
                  (rangeEntries fi fc (count_fields t0)) = none := by
                intro i
                rw [lookup_rangeEntries, if_neg (by omega)]
              constructor
              · intro hdrop i hi
                rw [hs] at hdrop ⊢
                rw [lookup_append_none (hskip i)]
                exact IH.1 hdrop i hi
              · intro hkeep i hi
                rw [hs] at hkeep ⊢
                rw [lookup_append_none (hskip i)]
                have ho : fc + kept_span_before names (t0 :: ts) fi (k + 1)
                    = fc + count_fields t0 + kept_span_before names ts (fi + count_fields t0) k := by
                  rw [kept_span_before, hd]
                  simp
                  omega
                rw [ho]
                exact IH.2 hkeep i hi
          | err e => rw [hrec] at h; exact absurd h (by simp)
          | panic => rw [hrec] at h; exact absurd h (by simp)


/-- C2 (amended).  For every input the reconciler accepts, the reduced wire
name list and the index map both have one entry per kept flattened slot (the
sum over kept top-level fields of their flattened span), while the reduced
wire top-level type list and the reduced native schema both have one entry
per kept top-level field; the three-way equality the claim states holds only
when every kept field is a leaf. -/
theorem claim_c2_amended (ns : NamedStruct) (arrow : ArrowSchema) (fields : Struct)
    (ns2 : NamedStruct) (arrow2 : ArrowSchema) (mp : List (Nat × Nat))
    (hf : ns.struct = some fields)
    (h : remove_extension_types ns arrow = .ok (ns2, arrow2, mp)) :
    ns2.names.length = kept_span_sum ns.names fields.types 0 ∧
    mp.length = kept_span_sum ns.names fields.types 0 ∧
    ns2.typesLen = kept_field_count ns.names fields.types 0 ∧
    arrow2.fields.length = kept_field_count ns.names fields.types 0 := by
  simp only [remove_extension_types, hf] at h
  by_cases hne : fields.types.length = arrow.fields.length
  · rw [if_neg (by simp [hne])] at h
    cases hrec : reconcile_fields ns.names fields.types arrow.fields 0 0 with
    | ok r =>
      obtain ⟨ks, ka, mpp⟩ := r
      rw [hrec] at h
      injection h with h
      injection h with h1 h
      injection h with h2 h3
      obtain ⟨g1, g2, g3, _⟩ :=
        reconcile_ok_parts ns.names fields.types arrow.fields 0 0 ks ka mpp hrec hne
      subst h3
      refine ⟨?_, g3, ?_, ?_⟩
      · rw [← h1]
        exact (rebuild_names_length ns.names mpp).trans g3
      · rw [← h1]
        rw [NamedStruct.typesLen]
        simp only
        rw [Struct.types]
        rw [g1]
        exact kept_types_length ns.names fields.types 0
      · rw [← h2]
        simp only
        rw [g2]
        exact kept_arrow_length ns.names fields.types arrow.fields 0 hne
    | err e => rw [hrec] at h; exact absurd h (by simp)
    | panic => rw [hrec] at h; exact absurd h (by simp)
  · rw [if_pos hne] at h
    exact absurd h (by simp)

/-- C2 counterexample.  On a wire schema whose single kept top-level field is
a nested record, the reduced wire name list has two entries while the reduced
native schema has one field, refuting the claimed equality of the two
lengths. -/
theorem claim_c2_counterexample :
    remove_extension_types cexNestedNS cexNestedArrow
      = .ok (⟨["s", "c"], some (.mk 0 0 [nestedStructType])⟩,
             ⟨[⟨"s", "structType", true⟩]⟩, [(0, 0), (1, 1)]) ∧
    (NamedStruct.mk ["s", "c"] (some (.mk 0 0 [nestedStructType]))).names.length
      ≠ (ArrowSchema.mk [⟨"s", "structType", true⟩]).fields.length :=
  ⟨rfl, by decide⟩

/-- C2 witness: the amended size invariant evaluated on the placeholder
scenario schema. -/
theorem claim_c2_witness :
    (NamedStruct.mk ["x"] (some (Struct.mk 0 0 [leafI32]))).names.length
      = kept_span_sum scenNS.names (Struct.mk 0 0 [leafI32, leafI32]).types 0 ∧
    ([((1 : Nat), (0 : Nat))]).length
      = kept_span_sum scenNS.names (Struct.mk 0 0 [leafI32, leafI32]).types 0 ∧
    (NamedStruct.mk ["x"] (some (Struct.mk 0 0 [leafI32]))).typesLen
      = kept_field_count scenNS.names (Struct.mk 0 0 [leafI32, leafI32]).types 0 ∧
    (ArrowSchema.mk [⟨"x", "i32", true⟩]).fields.length
      = kept_field_count scenNS.names (Struct.mk 0 0 [leafI32, leafI32]).types 0 :=
  claim_c2_amended scenNS scenArrow (Struct.mk 0 0 [leafI32, leafI32])
    (NamedStruct.mk ["x"] (some (Struct.mk 0 0 [leafI32])))
    (ArrowSchema.mk [⟨"x", "i32", true⟩]) [(1, 0)] rfl rfl

/-- C8 (amended).  The reconciler returns the typed schema-shape failure
exactly when the number of top-level wire type nodes differs from the native
field count (not the flattened count, which can be larger when records nest);
the check precedes any per-field examination, and with matching counts and a
name vector covering the flattened range the reconciler succeeds. -/
theorem claim_c8_amended (ns : NamedStruct) (arrow : ArrowSchema) (fields : Struct)
    (hf : ns.struct = some fields) :
    (fields.types.length ≠ arrow.fields.length →
      remove_extension_types ns arrow
        = .err (.invalidInput
            "the number of fields in the provided substrait schema did not match the number of fields in the input schema."
            srcLoc)) ∧
    (fields.types.length = arrow.fields.length →
      count_fields_list fields.types ≤ ns.names.length →
      ∃ out, remove_extension_types ns arrow = .ok out) := by
  constructor
  · intro hne
    simp only [remove_extension_types, hf]
    rw [if_pos hne]
  · intro heq hcov
    obtain ⟨r, hr⟩ := reconcile_total ns.names fields.types arrow.fields 0 0 (by simpa using hcov)
    obtain ⟨ks, ka, mpp⟩ := r
    refine ⟨(⟨rebuild_names ns.names mpp,
        some (.mk fields.nullability fields.typeVariationReference ks)⟩, ⟨ka⟩, mpp), ?_⟩
    simp only [remove_extension_types, hf]
    rw [if_neg (by simp [heq]), hr]

/-- C8 counterexample.  A wire schema with one nested record node has
flattened field count 2 against a native schema with 1 field, yet the
reconciler succeeds: the up-front check compares top-level node counts, not
flattened counts. -/
theorem claim_c8_counterexample :
    count_fields_list (Struct.mk 0 0 [nestedStructType]).types = 2 ∧
    cexNestedArrow.fields.length = 1 ∧
    remove_extension_types cexNestedNS cexNestedArrow
      = .ok (⟨["s", "c"], some (.mk 0 0 [nestedStructType])⟩,
             ⟨[⟨"s", "structType", true⟩]⟩, [(0, 0), (1, 1)]) :=
  ⟨rfl, rfl, rfl⟩

/-- C8 witness: the amended check evaluated on a mismatched and on a matched
pair of schemas. -/
theorem claim_c8_witness :
    remove_extension_types (NamedStruct.mk ["a", "b"] (some (Struct.mk 0 0 [leafI32, leafI32])))
        simpleArrow
      = .err (.invalidInput
          "the number of fields in the provided substrait schema did not match the number of fields in the input schema."
          srcLoc) ∧
    ∃ out, remove_extension_types simpleNS simpleArrow = .ok out :=
  ⟨(claim_c8_amended (NamedStruct.mk ["a", "b"] (some (Struct.mk 0 0 [leafI32, leafI32])))
      simpleArrow (Struct.mk 0 0 [leafI32, leafI32]) rfl).1 (by decide),
   (claim_c8_amended simpleNS simpleArrow (Struct.mk 0 0 [leafI32]) rfl).2 rfl (by decide)⟩

/-- C3.  For every accepted input, the k-th top-level wire field is dropped
exactly by the placeholder-name or user-defined-kind rule (isDroppedAt at its
flattened start index): when dropped, no flattened slot of the field appears
in the index map; when kept, every offset i below its span maps
old start + i to new cumulative kept offset + i. -/
theorem claim_c3_remap_totality (ns : NamedStruct) (arrow : ArrowSchema) (fields : Struct)
    (ns2 : NamedStruct) (arrow2 : ArrowSchema) (mp : List (Nat × Nat))
    (hf : ns.struct = some fields)
    (h : remove_extension_types ns arrow = .ok (ns2, arrow2, mp))
    (k : Nat) (t : SType) (hk : fields.types[k]? = some t) :
    (isDroppedAt ns.names (span_before fields.types k) t = true →
      ∀ i, i < count_fields t →
        List.lookup (span_before fields.types k + i) mp = none) ∧
    (isDroppedAt ns.names (span_before fields.types k) t = false →
      ∀ i, i < count_fields t →
        List.lookup (span_before fields.types k + i) mp
          = some (kept_span_before ns.names fields.types 0 k + i)) := by
  simp only [remove_extension_types, hf] at h
  by_cases hne : fields.types.length = arrow.fields.length
  · rw [if_neg (by simp [hne])] at h
    cases hrec : reconcile_fields ns.names fields.types arrow.fields 0 0 with
    | ok r =>
      obtain ⟨ks, ka, mpp⟩ := r
      rw [hrec] at h
      injection h with h
      injection h with h1 h
      injection h with h2 h3
      have := reconcile_mapping ns.names fields.types arrow.fields 0 0 ks ka mpp hrec hne k t hk
      rw [← h3]
      simpa using this
    | err e => rw [hrec] at h; exact absurd h (by simp)
    | panic => rw [hrec] at h; exact absurd h (by simp)
  · rw [if_pos hne] at h
    exact absurd h (by simp)

/-- C3 witness: on the placeholder scenario, flattened index 1 (the kept
field) maps to 0 and flattened index 0 (the dropped placeholder field) is
absent from the map. -/
theorem claim_c3_witness :
    List.lookup (span_before (Struct.mk 0 0 [leafI32, leafI32]).types 1 + 0) [((1 : Nat), (0 : Nat))]
      = some (kept_span_before scenNS.names (Struct.mk 0 0 [leafI32, leafI32]).types 0 1 + 0) ∧
    List.lookup (span_before (Struct.mk 0 0 [leafI32, leafI32]).types 0 + 0) [((1 : Nat), (0 : Nat))]
      = none :=
  ⟨(claim_c3_remap_totality scenNS scenArrow (Struct.mk 0 0 [leafI32, leafI32])
      (NamedStruct.mk ["x"] (some (Struct.mk 0 0 [leafI32])))
      (ArrowSchema.mk [⟨"x", "i32", true⟩]) [(1, 0)] rfl rfl 1 leafI32 rfl).2 (by decide)
      0 (by decide),
   (claim_c3_remap_totality scenNS scenArrow (Struct.mk 0 0 [leafI32, leafI32])
      (NamedStruct.mk ["x"] (some (Struct.mk 0 0 [leafI32])))
      (ArrowSchema.mk [⟨"x", "i32", true⟩]) [(1, 0)] rfl rfl 0 leafI32 rfl).1 (by decide)
      0 (by decide)⟩


/-- C4 (amended).  When the remap pass runs, every expression carrying one of
the listed constructs at a position the remapper visits (a window function, a
subquery, or a direct-input field reference that is masked, addresses a list
element or map key, or has a nested child) is rejected with a typed
invalid-input error; constructs buried in positions the remapper does not
visit (the children of a nested literal value, the sub-expression root of a
field reference) are not examined. -/
theorem claim_c4_amended (mapping : List (Nat × Nat)) (e : Expression)
    (h : visited_rejectable e = true) :
    ∃ msg, remap_expr_references mapping e = .error (.invalidInput msg srcLoc) :=
  remap_visited_err mapping e h

/-- C4 counterexample.  A tree containing a window function inside the
sub-expression root of a field reference decodes without any rejection: the
remap pass (which runs here, since the placeholder field is dropped) returns
it unchanged and decode hands it onward. -/
theorem claim_c4_counterexample :
    contains_rejected cexRootExpr = true ∧
    parse_substrait envC4 scenArrow
      = .ok (⟨["x"], some (.mk 0 0 [leafI32])⟩, ⟨[⟨"x", "i32", true⟩]⟩, cexRootExpr) :=
  ⟨rfl, rfl⟩

/-- C4 witness: a bare window function is rejected by the remap pass. -/
theorem claim_c4_witness :
    visited_rejectable .windowFunction = true ∧
    ∃ msg, remap_expr_references [] .windowFunction = .error (.invalidInput msg srcLoc) :=
  ⟨rfl, claim_c4_amended [] .windowFunction rfl⟩

/-- C5.  Envelope validation: decode fails with a typed invalid-input error
on an envelope with zero referenced expressions (naming the absence of
expressions), with more than one (naming that exactly 1 was expected), with a
referenced entry lacking an expression sub-type, or with a non-scalar
(measure) sub-type. -/
theorem claim_c5_envelope_validation (envelope : ExtendedExpression) (schema : ArrowSchema) :
    (envelope.referredExpr = [] →
      parse_substrait envelope schema
        = .err (.invalidInput
            "the provided substrait expression is empty (contains no expressions)" srcLoc)) ∧
    (envelope.referredExpr.length > 1 →
      parse_substrait envelope schema
        = .err (.invalidInput
            ("the provided substrait expression had "
              ++ toString envelope.referredExpr.length
              ++ " expressions when only 1 was expected") srcLoc)) ∧
    (∀ r, envelope.referredExpr = [r] → r.exprType = none →
      parse_substrait envelope schema
        = .err (.invalidInput
            "the provided substrait had an expression but was missing an expr_type" srcLoc)) ∧
    (∀ r, envelope.referredExpr = [r] → r.exprType = some .measure →
      parse_substrait envelope schema
        = .err (.invalidInput "the provided substrait was not a scalar expression" srcLoc)) := by
  refine ⟨?_, ?_, ?_, ?_⟩
  · intro h
    simp [parse_substrait, h]
  · intro h
    have hne : envelope.referredExpr.isEmpty = false := by
      cases hl : envelope.referredExpr with
      | nil => rw [hl] at h; simp at h
      | cons a l => rfl
    simp [parse_substrait, hne, h]
  · intro r hre hnone
    simp [parse_substrait, hre, hnone]
  · intro r hre hmeasure
    simp [parse_substrait, hre, hmeasure]

/-- C5 witness: the zero-expression and two-expression envelopes fail with
the stated messages. -/
theorem claim_c5_witness :
    parse_substrait envEmpty simpleArrow
      = .err (.invalidInput
          "the provided substrait expression is empty (contains no expressions)" srcLoc) ∧
    parse_substrait envTwo simpleArrow
      = .err (.invalidInput
          "the provided substrait expression had 2 expressions when only 1 was expected" srcLoc) :=
  ⟨(claim_c5_envelope_validation envEmpty simpleArrow).1 rfl,
   (claim_c5_envelope_validation envTwo simpleArrow).2.1 (by decide)⟩

/-- C6.  Fast path frame condition: when reconciliation drops zero fields
(the reduced top-level count equals the original), decode skips the remap
step and the expression handed to the external planner is exactly the decoded
expression, unchanged. -/
theorem claim_c6_fast_path (envelope : ExtendedExpression) (schema : ArrowSchema)
    (e : Expression) (r : ExpressionReference) (base : NamedStruct) (fields : Struct)
    (ns2 : NamedStruct) (arrow2 : ArrowSchema) (mp : List (Nat × Nat))
    (hre : envelope.referredExpr = [r])
    (hex : r.exprType = some (.expressionET e))
    (hb : envelope.baseSchema = some base)
    (hf : base.struct = some fields)
    (hrec : remove_extension_types base schema = .ok (ns2, arrow2, mp))
    (hlen : ns2.typesLen = base.typesLen) :
    parse_substrait envelope schema = .ok (ns2, arrow2, e) := by
  simp [parse_substrait, hre, hex, hb, hf, hrec, hlen]

/-- C6 witness: the one-field envelope decodes with its expression untouched. -/
theorem claim_c6_witness :
    parse_substrait envSimple simpleArrow
      = .ok (⟨["x"], some (.mk 0 0 [leafI32])⟩, ⟨[⟨"x", "i32", true⟩]⟩, selX) :=
  claim_c6_fast_path envSimple simpleArrow selX ⟨some (.expressionET selX)⟩ simpleNS
    (Struct.mk 0 0 [leafI32]) (⟨["x"], some (.mk 0 0 [leafI32])⟩)
    (⟨[⟨"x", "i32", true⟩]⟩) [(0, 0)] rfl rfl rfl rfl rfl rfl

/-- C7.  Qualifier stripping: when every column qualifier is absent or the
bare dummy table, the final pass rewrites each dummy-qualified column to the
unqualified column with the same name and spans; any other qualifier makes
the pass fail hard.  Instantiated at dummy.x < 0, this yields the unqualified
x < 0 of the decode scenario. -/
theorem claim_c7_qualifier_stripping (e : DFExpr) :
    (all_quals_dummy_or_none e = true →
      strip_dummy_qualifiers e = .ok (unqualify_dummy e)) ∧
    (all_quals_dummy_or_none e = false →
      ∃ msg, strip_dummy_qualifiers e = .error msg) := by
  induction e with
  | column c =>
    obtain ⟨rel, name, spans⟩ := c
    cases rel with
    | none => exact ⟨fun _ => rfl, fun hfalse => by simp [all_quals_dummy_or_none, qualOkDummy] at hfalse⟩
    | some tr =>
      cases tr with
      | bare t =>
        by_cases ht : t = "dummy"
        · subst ht
          constructor
          · intro _
            rfl
          · intro hfalse
            simp [all_quals_dummy_or_none, qualOkDummy] at hfalse
        · constructor
          · intro htrue
            simp [all_quals_dummy_or_none, qualOkDummy, ht] at htrue
          · intro _
            refine ⟨"Unexpected reference to table " ++ t ++ " found when parsing filter", ?_⟩
            simp only [strip_dummy_qualifiers]
            rw [if_neg ht]
      | partialRef s t => exact ⟨fun htrue => by simp [all_quals_dummy_or_none, qualOkDummy] at htrue,
          fun _ => ⟨_, rfl⟩⟩
      | full cg s t => exact ⟨fun htrue => by simp [all_quals_dummy_or_none, qualOkDummy] at htrue,
          fun _ => ⟨_, rfl⟩⟩
  | literalInt v =>
    exact ⟨fun _ => rfl, fun hfalse => by simp [all_quals_dummy_or_none] at hfalse⟩
  | binaryExpr l op r ihl ihr =>
    constructor
    · intro htrue
      rw [all_quals_dummy_or_none, Bool.and_eq_true] at htrue
      rw [strip_dummy_qualifiers, ihl.1 htrue.1, ihr.1 htrue.2]
      rfl
    · intro hfalse
      rw [all_quals_dummy_or_none, Bool.and_eq_false_iff] at hfalse
      rcases hfalse with hl | hr2
      · obtain ⟨msg, hm⟩ := ihl.2 hl
        exact ⟨msg, by rw [strip_dummy_qualifiers, hm]⟩
      · cases hsl : strip_dummy_qualifiers l with
        | error msg => exact ⟨msg, by rw [strip_dummy_qualifiers, hsl]⟩
        | ok l2 =>
          obtain ⟨msg, hm⟩ := ihr.2 hr2
          exact ⟨msg, by rw [strip_dummy_qualifiers, hsl, hm]⟩

/-- C7 witness: dummy.x < 0 becomes x < 0, and a foreign qualifier fails. -/
theorem claim_c7_witness :
    strip_dummy_qualifiers dummyXLtZero = .ok unqualXLtZero ∧
    ∃ msg, strip_dummy_qualifiers foreignQualExpr = .error msg :=
  ⟨(claim_c7_qualifier_stripping dummyXLtZero).1 rfl,
   (claim_c7_qualifier_stripping foreignQualExpr).2 rfl⟩

/-- C9.  The cloneable error wrapper retains the wrapped error in full; every
clone is the distinguished Cloned kind carrying exactly the rendered string
of the original (not its structure), so whenever the original is not itself
of the Cloned kind, an original failure and a relayed one differ in kind. -/
theorem claim_c9_cloneable_error (e : Error) (loc : Location) :
    (CloneableError.mk e).err = e ∧
    ((CloneableError.mk e).clone loc).err = .cloned e.display loc ∧
    (((CloneableError.mk e).clone loc).err).kind = .cloned ∧
    (e.kind ≠ .cloned → (((CloneableError.mk e).clone loc).err).kind ≠ e.kind) := by
  refine ⟨rfl, rfl, rfl, ?_⟩
  intro h hc
  exact h hc.symm

/-- C9 counterexample.  When the wrapped error is itself of the Cloned kind
(for example the relayed result of an earlier fan-out), the original and its
clone carry the same kind, so they are not distinguishable by kind; the
universal distinguishability part of the claim fails for that input. -/
theorem claim_c9_counterexample :
    (((CloneableError.mk (Error.cloned "relayed" ⟨"a.rs", 1, 1⟩)).clone
        ⟨"b.rs", 2, 2⟩).err).kind
      = (Error.cloned "relayed" ⟨"a.rs", 1, 1⟩).kind := rfl

/-- C9 witness: instantiated at a concrete wrapped IO error. -/
theorem claim_c9_witness :
    (CloneableError.mk (Error.ioErr "disk failure" ⟨"io.rs", 10, 5⟩)).err
      = Error.ioErr "disk failure" ⟨"io.rs", 10, 5⟩ ∧
    ((CloneableError.mk (Error.ioErr "disk failure" ⟨"io.rs", 10, 5⟩)).clone
        ⟨"caller.rs", 3, 7⟩).err
      = .cloned (Error.ioErr "disk failure" ⟨"io.rs", 10, 5⟩).display ⟨"caller.rs", 3, 7⟩ ∧
    (((CloneableError.mk (Error.ioErr "disk failure" ⟨"io.rs", 10, 5⟩)).clone
        ⟨"caller.rs", 3, 7⟩).err).kind = .cloned ∧
    ((Error.ioErr "disk failure" ⟨"io.rs", 10, 5⟩).kind ≠ .cloned →
      (((CloneableError.mk (Error.ioErr "disk failure" ⟨"io.rs", 10, 5⟩)).clone
          ⟨"caller.rs", 3, 7⟩).err).kind
        ≠ (Error.ioErr "disk failure" ⟨"io.rs", 10, 5⟩).kind) :=
  claim_c9_cloneable_error (Error.ioErr "disk failure" ⟨"io.rs", 10, 5⟩) ⟨"caller.rs", 3, 7⟩

/-- C10 (amended).  Decode panics on an envelope with no base schema provided
the envelope passes the shape validation (exactly one referred expression
bearing a plain scalar expression); envelopes failing validation return a
typed error before the unwrap is reached. -/
theorem claim_c10_amended (envelope : ExtendedExpression) (schema : ArrowSchema)
    (e : Expression) (r : ExpressionReference)
    (hre : envelope.referredExpr = [r])
    (hex : r.exprType = some (.expressionET e))
    (hb : envelope.baseSchema = none) :
    parse_substrait envelope schema = .panic := by
  simp [parse_substrait, hre, hex, hb]

/-- C10 counterexample.  An envelope with no base schema and zero referenced
expressions does not panic: decode returns the typed empty-envelope error, so
the missing base schema alone does not force a panic. -/
theorem claim_c10_counterexample :
    envNoSchemaNoExprs.baseSchema = none ∧
    parse_substrait envNoSchemaNoExprs simpleArrow
      = .err (.invalidInput
          "the provided substrait expression is empty (contains no expressions)" srcLoc) :=
  ⟨rfl, rfl⟩

/-- C10 witness: a validated one-expression envelope with no base schema
panics. -/
theorem claim_c10_witness : parse_substrait envNoSchema simpleArrow = .panic :=
  claim_c10_amended envNoSchema simpleArrow .literal ⟨some (.expressionET .literal)⟩ rfl rfl rfl

end LanceSubstrait
